import Mathlib

/-!
Verification of the agentic-kanban backend: a shallow embedding of the
schema loader (`backend/schema_loader.py`), the dynamic model deriver
(`backend/models.py`), the card store (`backend/database.py`) and the
status normalisation of the MCP tool layer (`mcp/fastmcp_server.py`),
together with proofs of the behavioural properties stated in the spec.

Modelling conventions:
* JSON documents are the inductive `Json`; Python `dict.get(k, default)`
  on a non-dict raises `AttributeError`, which the embedding surfaces as
  an `Except` error (the Python code catches it and re-raises
  `RuntimeError`).
* Python truthiness of JSON values is `Json.truthy`.
* Timestamps are natural numbers; `datetime.utcnow().isoformat()` /
  `datetime.fromisoformat` are modelled as decimal printing and parsing
  of that number (`encNat` / `decNat`).
* ChromaDB metadata records are association lists of string keys to
  string values, in insertion order, exactly as produced by
  `all_card_dict_fields_to_str`.
-/

/-- JSON values, as produced by `json.load` in `schema_loader.py`.
Object fields keep their textual order, as Python dicts do. -/
inductive Json where
  | null : Json
  | bool : Bool → Json
  | num : Int → Json
  | str : String → Json
  | arr : List Json → Json
  | obj : List (String × Json) → Json

namespace Json

/-- Python truthiness of a JSON value (`if not x`). -/
def truthy : Json → Bool
  | .null => false
  | .bool b => b
  | .num n => n != 0
  | .str s => s != ""
  | .arr xs => !xs.isEmpty
  | .obj fs => !fs.isEmpty

/-- `d.get(k, dflt)` on a Python dict; raises `AttributeError` (modelled
as an error string) when the receiver is not a dict. -/
def dictGet : Json → String → Json → Except String Json
  | .obj fs, k, dflt => .ok ((( fs.find? (fun p => p.1 == k)).map Prod.snd).getD dflt)
  | _, _, _ => .error "AttributeError"

/-- Field lookup on an object, `none` when absent or not an object. -/
def objGet? : Json → String → Option Json
  | .obj fs, k => (fs.find? (fun p => p.1 == k)).map Prod.snd
  | _, _ => none

/-- Python `==` between a JSON value and a string literal: true only
when the value is that string (`'date-time'` checks, `in` on a
`required` array of names). -/
def eqStr : Json → String → Bool
  | .str a, b => a == b
  | _, _ => false

/-- Whether an object literally carries the key (Python `k in d`). -/
def hasKey : Json → String → Bool
  | .obj fs, k => fs.any (fun p => p.1 == k)
  | _, _ => false

end Json

/-! ## Schema loader (`backend/schema_loader.py`) -/

/-- `SchemaLoader.get_schema`: returns the loaded schema, raising
`RuntimeError("Schema not loaded")` when `self.schema_data` is falsy. -/
def get_schema (d : Json) : Except String Json :=
  if d.truthy then .ok d else .error "Schema not loaded"

/-- `SchemaLoader.get_card_properties`: navigates
`properties.cards.items.properties` with Python `.get(k, default)` calls,
raising when an intermediate value is falsy (all raises are wrapped into
`RuntimeError` by the enclosing `except` block). -/
def get_card_properties (d : Json) : Except String Json := do
  if !d.truthy then throw "Schema not loaded" else
  let properties ← d.dictGet "properties" (.obj [])
  if !properties.truthy then throw "No properties found in schema" else
  let cards ← properties.dictGet "cards" (.obj [])
  if !cards.truthy then throw "No cards property found in schema" else
  let items ← cards.dictGet "items" (.obj [])
  if !items.truthy then throw "No items property found in cards array" else
  let cardProps ← items.dictGet "properties" (.obj [])
  if !cardProps.truthy then throw "No properties found in card item" else
  pure cardProps

/-- `SchemaLoader.get_required_fields`: `properties.cards.items.required`
with `[]` as default at the last step. -/
def get_required_fields (d : Json) : Except String Json := do
  if !d.truthy then throw "Schema not loaded" else
  let properties ← d.dictGet "properties" (.obj [])
  let cards ← properties.dictGet "cards" (.obj [])
  let items ← cards.dictGet "items" (.obj [])
  items.dictGet "required" (.arr [])

/-- Whether `get_card_properties` succeeds on a document, i.e. the
document has a (truthy) `properties.cards.items.properties` path. -/
def hasCardPropertiesPath (d : Json) : Bool :=
  match get_card_properties d with
  | .ok _ => true
  | .error _ => false

/-- What `json.load` produced for the schema file on disk: the file may
be absent, fail JSON parsing, or parse to a document. -/
inductive FileContent where
  | missing : FileContent
  | badJson : FileContent
  | parsed : Json → FileContent

/-- `SchemaLoader._load_schema` (also the body of `reload_schema`): on a
missing file or a JSON parse error the exception is raised before
`self.schema_data` is assigned, so the previous document stays; on a
successful parse the document replaces `self.schema_data`
unconditionally. Returns the new `schema_data` and the raised error. -/
def load_schema (d : Json) : FileContent → Json × Option String
  | .missing => (d, some "Schema file not found")
  | .badJson => (d, some "Invalid JSON in schema file")
  | .parsed j => (j, none)

/-! ## Dynamic model deriver (`backend/models.py`) -/

/-- The Python types `DynamicCardModel._get_python_type` can produce for
a schema property: `str`, `int`, `bool`, `datetime`, a dynamic status
`Enum`, `List[str]`, `List[Any]`, or the `Any` fallback. -/
inductive PyType where
  | pstr : PyType
  | pint : PyType
  | pbool : PyType
  | pdatetime : PyType
  | penum : List String → PyType
  | plistStr : PyType
  | plistAny : PyType
  | pany : PyType
deriving DecidableEq, Repr

/-- Python `str.lower()`, character-wise over the string's characters
(the ASCII fragment, which is what `Char.toLower` handles). -/
def pyLower (s : String) : String := String.mk (s.data.map Char.toLower)

/-- `DynamicCardModel._create_status_enum`: builds an `Enum` from the
`enum` array. Non-string entries make `value.upper()` raise, which the
function catches, falling back to `str`; the same fallback covers a
non-array `enum` value. -/
def create_status_enum : Json → PyType
  | .arr vs =>
    if vs.all (fun v => match v with | .str _ => true | _ => false) then
      .penum (vs.filterMap (fun v => match v with | .str s => some s | _ => none))
    else .pstr
  | _ => .pstr

/-- `DynamicCardModel._get_python_type`: maps a JSON-schema property
spec to a Python type.  Every exception inside the body (attribute
errors on non-dict specs, `.lower()` on a non-string description) is
caught and turned into the `Any` fallback, as is an unrecognized
`type` value. -/
def get_python_type (spec : Json) : PyType :=
  match spec with
  | .obj fs =>
    let ty := ((Json.obj fs).objGet? "type").getD .null
    if ty.eqStr "string" then
      if (((Json.obj fs).objGet? "format").getD .null).eqStr "date-time" then .pdatetime
      else if (Json.obj fs).hasKey "enum" then
        match (Json.obj fs).objGet? "description" with
        | some (.str descr) =>
          if pyLower descr == "status" then
            create_status_enum (((Json.obj fs).objGet? "enum").getD .null)
          else .pstr
        | none => .pstr
        | some _ => .pany
      else .pstr
    else if ty.eqStr "integer" then .pint
    else if ty.eqStr "array" then
      match (Json.obj fs).objGet? "items" with
      | none => .plistAny
      | some (.obj ifs) =>
        if (((Json.obj ifs).objGet? "type").getD .null).eqStr "string" then .plistStr
        else .plistAny
      | some _ => .pany
    else if ty.eqStr "boolean" then .pbool
    else .pany
  | _ => .pany

/-- Whether a property spec carries one of the four recognized `type`
values (`string`, `integer`, `array`, `boolean`); anything else falls
into the final `else` of `_get_python_type`. -/
def typeRecognized (spec : Json) : Bool :=
  match spec with
  | .obj fs =>
    let ty := ((Json.obj fs).objGet? "type").getD .null
    ty.eqStr "string" || ty.eqStr "integer" || ty.eqStr "array" || ty.eqStr "boolean"
  | _ => false

/-- A field of a dynamically created Pydantic model: its Python type and
whether it is required (`(T, ...)`) or optional (`(Optional[T], None)`). -/
structure FieldDef where
  type : PyType
  required : Bool
deriving DecidableEq, Repr

/-- Python `field_name in required_fields` for the value found at the
schema's `required` key (a JSON array of names in every schema the
backend handles). -/
def requiredContains (req : Json) (name : String) : Bool :=
  match req with
  | .arr xs => xs.any (fun v => v.eqStr name)
  | _ => false

/-- The field definitions of the dynamic `Card` model: one field per
card property, required iff listed in `required`, typed by
`_get_python_type`.  The per-field `except` fallback `(Any, None)` is
unreachable because `_get_python_type` catches its own exceptions. -/
def cardFieldDefs (props : List (String × Json)) (req : Json) : List (String × FieldDef) :=
  props.map (fun p => (p.1, ⟨get_python_type p.2, requiredContains req p.1⟩))

/-- The field definitions of the dynamic `CardUpdate` model: every card
property except `id` and `createdAt`, each optional with default
`None`. -/
def updateFieldDefs (props : List (String × Json)) : List (String × FieldDef) :=
  props.filterMap (fun p =>
    if p.1 == "id" || p.1 == "createdAt" then none
    else some (p.1, FieldDef.mk (get_python_type p.2) false))

/-- The model set built by `DynamicCardModel._create_models`.  The
`CardList`, `CardResponse` and `CardsResponse` models are fixed wrappers
around `Card` and are not modelled separately. -/
structure Models where
  card : List (String × FieldDef)
  cardUpdate : List (String × FieldDef)
deriving DecidableEq, Repr

/-- `card_properties.items()`: iterating a non-dict raises (wrapped into
the enclosing `RuntimeError`). -/
def asObj : Json → Except String (List (String × Json))
  | .obj fs => .ok fs
  | _ => .error "card properties is not a dict"

/-- `DynamicCardModel._create_models`: reads the schema, the card
properties and the required list, then derives the model set.  All
reads happen before any model is assigned, so a failing read leaves the
previously created models in place (modelled by `reload_models_op`). -/
def create_models (d : Json) : Except String Models := do
  let _ ← get_schema d
  let propsJ ← get_card_properties d
  let req ← get_required_fields d
  let props ← asObj propsJ
  pure ⟨cardFieldDefs props req, updateFieldDefs props⟩

/-- The mutable state of `models.py`: the loader's `schema_data` and the
currently exported model set. -/
structure DynState where
  schema_data : Json
  models : Models

/-- `DynamicCardModel.reload_models` (the path behind the
`/api/schema/reload` endpoint): first `reload_schema` — which replaces
`schema_data` whenever the file parses — then `_create_models`.  On any
failure the exception is surfaced (as `RuntimeError`) and the previous
model set stays, but `schema_data` keeps whatever `reload_schema` left
in it. -/
def reload_models_op (st : DynState) (f : FileContent) : DynState × Option String :=
  match load_schema st.schema_data f with
  | (d2, some e) => ({ st with schema_data := d2 }, some e)
  | (d2, none) =>
    match create_models d2 with
    | .error e => ({ st with schema_data := d2 }, some e)
    | .ok ms => ({ schema_data := d2, models := ms }, none)

/-! ## String encodings used by the store

Timestamps are modelled as natural numbers and their wire form
(`isoformat` / `fromisoformat`) as decimal printing and parsing; `order`
is serialized with `str(int)` and re-read through Pydantic's string
coercion, modelled the same way for `Int`. -/

/-- The decimal digit character for `d < 10`. -/
def digitChar (d : Nat) : Char := Char.ofNat (48 + d)

/-- Digit characters of a positive number, most significant first; the
first argument is fuel (`n` itself always suffices). -/
def natDigitsAux : Nat → Nat → List Char
  | 0, _ => []
  | fuel + 1, n => if n = 0 then [] else natDigitsAux fuel (n / 10) ++ [digitChar (n % 10)]

/-- Decimal rendering of a natural number (`str(n)` in Python). -/
def encNat (n : Nat) : String :=
  if n = 0 then "0" else String.mk (natDigitsAux n n)

/-- The value of a decimal digit character, `none` otherwise. -/
def digitVal? (c : Char) : Option Nat :=
  if 48 ≤ c.toNat ∧ c.toNat ≤ 57 then some (c.toNat - 48) else none

/-- Left fold of decimal parsing over a character list. -/
def decNatCore : List Char → Nat → Option Nat
  | [], acc => some acc
  | c :: cs, acc =>
    match digitVal? c with
    | some d => decNatCore cs (acc * 10 + d)
    | none => none

/-- Decimal parsing of a non-empty all-digit string (`int(s)`,
`datetime.fromisoformat` on the modelled timestamps). -/
def decNat (s : String) : Option Nat :=
  match s.toList with
  | [] => none
  | cs => decNatCore cs 0

/-- `str(i)` for a Python int. -/
def encInt : Int → String
  | .ofNat n => encNat n
  | .negSucc n => "-" ++ encNat (n + 1)

/-- Integer parsing (Pydantic's `int` coercion of a string value). -/
def decInt (s : String) : Option Int :=
  match s.toList with
  | [] => none
  | c :: cs =>
    if c = '-' then (decNat (String.mk cs)).map (fun n => -(n : Int))
    else (decNat s).map (fun n => (n : Int))

/-- The single-quote character Python `repr` puts around list items. -/
def quoteChar : Char := Char.ofNat 39

/-- Characters of `repr(tag)` for a tag without a quote character:
`'tag'`. -/
def reprTagChars (t : String) : List Char :=
  quoteChar :: t.data ++ [quoteChar]

/-- Characters between the brackets of `str(list_of_strings)`: items
separated by a comma and a space. -/
def reprListChars : List String → List Char
  | [] => []
  | [t] => reprTagChars t
  | t :: ts => reprTagChars t ++ ',' :: ' ' :: reprListChars ts

/-- `str(xs)` for a Python list of strings, as `database.py` stores the
`tags` field (`str([tag.lower() for tag in card.tags])`). -/
def pyReprStrList (xs : List String) : String :=
  String.mk ('[' :: reprListChars xs ++ [']'])

/-- Parser state walking one quoted item: `acc` holds the characters of
the current item in reverse; on the closing quote the input must
continue with `]` (end) or `, '` (next item). -/
def parseTags : List Char → List Char → Option (List String)
  | _, [] => none
  | acc, c :: rest =>
    if c = quoteChar then
      match rest with
      | [']'] => some [String.mk acc.reverse]
      | ',' :: ' ' :: q :: rest2 =>
        if q = quoteChar then
          (parseTags [] rest2).map (fun ts => String.mk acc.reverse :: ts)
        else none
      | _ => none
    else parseTags (c :: acc) rest

/-- The characters following the closing quote of an item in
`str(list_of_strings)`: the final bracket after the last item, the
separator and the rest of the items otherwise. -/
def tailChars : List String → List Char
  | [] => [']']
  | ts => ',' :: ' ' :: (reprListChars ts ++ [']'])

/-- `eval(s)` as `database.py` applies it to the stored `tags` value: a
parser for the `str(list_of_strings)` image (items without quote
characters). -/
def pyEvalStrList (s : String) : Option (List String) :=
  match s.toList with
  | c0 :: c1 :: rest =>
    if c0 = '[' then
      if c1 = ']' then (if rest = [] then some [] else none)
      else if c1 = quoteChar then parseTags [] rest else none
    else none
  | _ => none

/-! ## Card store (`backend/database.py`)

ChromaDB metadata records are association lists from string keys to
string values (`all_card_dict_fields_to_str` stringifies every value);
the collection itself is an association list from card id to metadata,
in insertion order, which is the order `collection.get()` returns. -/

/-- A stored metadata record. -/
abbrev Meta := List (String × String)

/-- Lookup of a key in a metadata record. -/
def mLookup (m : Meta) (k : String) : Option String :=
  (m.find? (fun p => p.1 == k)).map Prod.snd

/-- Lookup in a card dict before stringification. -/
def pvLookup (l : List (String × PyVal)) (k : String) : Option PyVal :=
  (l.find? (fun p => p.1 == k)).map Prod.snd

/-- The keys of a metadata record. -/
def mKeys (m : Meta) : List String := m.map Prod.fst

/-- A Python value appearing in a card dict before
`all_card_dict_fields_to_str` stringifies it: a string, an int, a list
of strings, a datetime, or `None`. -/
inductive PyVal where
  | vstr : String → PyVal
  | vint : Int → PyVal
  | vlist : List String → PyVal
  | vdt : Nat → PyVal
  | vnone : PyVal
deriving DecidableEq, Repr

/-- One entry of `all_card_dict_fields_to_str`: datetimes are printed,
lists are stringified element-wise, `None` becomes the string `"None"`
except for `completedAt`, which is dropped from the record entirely
(ChromaDB rejects `None` metadata values). -/
def stringifyVal (k : String) : PyVal → Option String
  | .vstr s => some s
  | .vint n => some (encInt n)
  | .vlist xs => some (pyReprStrList xs)
  | .vdt t => some (encNat t)
  | .vnone => if k == "completedAt" then none else some "None"

/-- `all_card_dict_fields_to_str` over a whole card dict. -/
def stringifyMeta (m : List (String × PyVal)) : Meta :=
  m.filterMap (fun p => (stringifyVal p.1 p.2).map (fun s => (p.1, s)))

/-- A card handed to `CardDatabase.add_cards`: an instance of the
dynamic `Card` model (shape per the schema document, see
`cardSchemaJson` below).  `id` and `createdAt` may be unset;
`updatedAt` is overwritten by `add_cards` and therefore not an input. -/
structure CardIn where
  id : Option String
  title : String
  description : String
  status : String
  order : Int
  tags : List String
  createdAt : Option Nat
  completedAt : Option Nat
deriving DecidableEq, Repr

/-- Python falsiness of the `id` attribute (`not card.id`): unset or
the empty string. -/
def idFalsy (c : CardIn) : Bool :=
  match c.id with
  | none => true
  | some i => i == ""

/-- The id `add_cards` stores for a card: the card's own id when
truthy, otherwise the freshly generated `str(uuid.uuid4())`. -/
def assignedId (c : CardIn) (fresh : String) : String :=
  match c.id with
  | none => fresh
  | some i => if i == "" then fresh else i

/-- The metadata record `add_cards` builds for one card: id assigned if
absent, `createdAt` defaulted to `now`, `updatedAt` set to `now`,
`tags` replaced by the string image of the lowercased list, then
`all_card_dict_fields_to_str` (under which `completedAt = None` is
dropped).  Keys follow the model's field order. -/
def processCard (c : CardIn) (fresh : String) (now : Nat) : Meta :=
  stringifyMeta
    [ ("id", .vstr (assignedId c fresh)),
      ("title", .vstr c.title),
      ("description", .vstr c.description),
      ("status", .vstr c.status),
      ("order", .vint c.order),
      ("tags", .vstr (pyReprStrList (c.tags.map pyLower))),
      ("createdAt", .vdt (c.createdAt.getD now)),
      ("updatedAt", .vdt now),
      ("completedAt", match c.completedAt with | some t => .vdt t | none => .vnone) ]

/-- `CardDatabase.add_cards`: processes the batch in order, consuming
one fresh uuid (`gen ctr`, `gen (ctr+1)`, …) per card whose id is
falsy, and returns the assigned ids, the records appended to the
collection, and the next counter state. -/
def add_cards (gen : Nat → String) (now : Nat) :
    List CardIn → Nat → List String × List (String × Meta) × Nat
  | [], ctr => ([], [], ctr)
  | c :: cs, ctr =>
    let i := assignedId c (gen ctr)
    let ctr1 := if idFalsy c then ctr + 1 else ctr
    let rest := add_cards gen now cs ctr1
    (i :: rest.1, (i, processCard c (gen ctr) now) :: rest.2.1, rest.2.2)

/-- A validated instance of the dynamic `Card` model, as read back from
the store. -/
structure Card where
  id : String
  title : String
  description : String
  status : String
  order : Int
  tags : List String
  createdAt : Nat
  updatedAt : Nat
  completedAt : Option Nat
deriving DecidableEq, Repr

/-- The per-record body of `CardDatabase.get_all_cards` (the same field
handling appears in `get_card_by_id`): parse `createdAt` / `updatedAt`,
treat a missing, empty or `"None"` `completedAt` as `None`, `eval` the
`tags` string, then validate through `Card(**card_data)` (required
fields present, `order` coerced to int).  Any exception yields `none`. -/
def parseCard (m : Meta) : Option Card := do
  let createdS ← mLookup m "createdAt"
  let created ← decNat createdS
  let updatedS ← mLookup m "updatedAt"
  let updated ← decNat updatedS
  let completed ←
    match mLookup m "completedAt" with
    | none => some none
    | some s =>
      if s == "" || s == "None" then some none
      else (decNat s).map some
  let tagsS ← mLookup m "tags"
  let tags ← pyEvalStrList tagsS
  let i ← mLookup m "id"
  let t ← mLookup m "title"
  let d ← mLookup m "description"
  let st ← mLookup m "status"
  let oS ← mLookup m "order"
  let o ← decInt oS
  pure ⟨i, t, d, st, o, tags, created, updated, completed⟩

/-- The sort key comparison of `cards.sort(key=lambda x: x.order)`. -/
def cardLE (a b : Card) : Bool := decide (a.order ≤ b.order)

/-- `CardDatabase.get_all_cards`: parse every stored record, skipping
any that fails (`except` → `continue`), then stable-sort by `order`. -/
def get_all_cards (db : List (String × Meta)) : List Card :=
  ((db.map Prod.snd).filterMap parseCard).mergeSort cardLE

/-- `CardDatabase.get_card_by_id`: absent id gives `none`; a present
record that fails parsing raises (`RuntimeError`), it is not skipped. -/
def get_card_by_id (db : List (String × Meta)) (i : String) : Except String (Option Card) :=
  match db.find? (fun p => p.1 == i) with
  | none => .ok none
  | some p =>
    match parseCard p.2 with
    | some c => .ok (some c)
    | none => .error "Failed to retrieve card"

/-- `update_dict[k] = v` on a Python dict: replace in place when the
key exists, append otherwise. -/
def setKeyPV (upd : List (String × PyVal)) (k : String) (v : PyVal) :
    List (String × PyVal) :=
  if upd.any (fun p => p.1 == k) then
    upd.map (fun p => if p.1 == k then (p.1, v) else p)
  else upd ++ [(k, v)]

/-- `updated_metadata = current_metadata.copy(); updated_metadata.update(update_dict)`:
existing keys keep their position and take the update's value, new keys
are appended in the update's order. -/
def dictUpdatePV (m : Meta) (upd : List (String × PyVal)) : List (String × PyVal) :=
  m.map (fun p =>
    match upd.find? (fun q => q.1 == p.1) with
    | some q => (p.1, q.2)
    | none => (p.1, PyVal.vstr p.2))
  ++ upd.filter (fun q => !(m.any (fun p => p.1 == q.1)))

/-- The stored-metadata effect of `CardDatabase.update_card` on a found
record: an empty `update_dict` writes nothing; otherwise `updatedAt` is
stamped with `datetime.utcnow().isoformat()` whenever the current
record has that key, the dicts are merged, and the result is passed
through `all_card_dict_fields_to_str`.  The update payload is applied
verbatim — no field of it is validated here. -/
def update_card_meta (m : Meta) (upd : List (String × PyVal)) (now : Nat) : Meta :=
  if upd.isEmpty then m
  else
    let upd1 :=
      if m.any (fun p => p.1 == "updatedAt") then
        setKeyPV upd "updatedAt" (.vstr (encNat now))
      else upd
    stringifyMeta (dictUpdatePV m upd1)

/-! ## Update validation and the MCP tool layer -/

/-- Pydantic validation of one value against a derived field type
(the coercions the claims exercise: enum fields admit only enumerated
strings, plain string fields admit any string). -/
def valueMatches : PyType → PyVal → Bool
  | .pstr, .vstr _ => true
  | .pint, .vint _ => true
  | .pbool, _ => false
  | .pdatetime, .vdt _ => true
  | .penum vs, .vstr s => vs.contains s
  | .plistStr, .vlist _ => true
  | .plistAny, .vlist _ => true
  | .pany, _ => true
  | _, _ => false

/-- Validation of an update payload against the derived `CardUpdate`
model: keys not in the model are dropped (Pydantic ignores unknown
fields), a known key with a mismatched value fails the whole request
(HTTP 422 before the store is touched). -/
def validateUpdate (fields : List (String × FieldDef)) (payload : List (String × PyVal)) :
    Option (List (String × PyVal)) :=
  if payload.all (fun p =>
      match fields.find? (fun f => f.1 == p.1) with
      | some f => valueMatches f.2.type p.2
      | none => true) then
    some (payload.filter (fun p => fields.any (fun f => f.1 == p.1)))
  else none

/-- The `PUT /api/cards/{id}` body as it reaches the store: validate
against `CardUpdate`, then apply `update_card` to the stored record. -/
def update_endpoint (fields : List (String × FieldDef)) (m : Meta)
    (payload : List (String × PyVal)) (now : Nat) : Option Meta :=
  (validateUpdate fields payload).map (fun p => update_card_meta m p now)

/-- `_VALID_STATUSES` of `mcp/fastmcp_server.py`. -/
def mcpValidStatuses : List String :=
  ["research", "in-progress", "done", "blocked", "planned"]

/-- The status entry `update_kanban_card` puts into its API payload:
`status if status in _VALID_STATUSES else "planned"`. -/
def mcp_update_status (s : String) : String :=
  if mcpValidStatuses.contains s then s else "planned"

/-! ## The schema document -/

/-- Modelled from the spec: the repository's `card.schema.json` (read by
`SchemaLoader`, path `backend/../card.schema.json`) is not part of the
source tree.  Its card properties follow spec sections 3 and 6: id,
title, description (strings), status (string with enum
research/in-progress/done/blocked/planned), order (integer), tags
(array of strings), createdAt/updatedAt (date-time strings),
completedAt (nullable date-time).  The status property's description is
prose, not the literal `"status"` that `_get_python_type` requires for
enum derivation — per spec section 9, the API layer, not the model,
enforces the status fallback, and section 8 notes the components are
inconsistent on invalid statuses, which is only possible when the
derived model types status as a plain string. -/
def cardProps : List (String × Json) :=
  [ ("id", .obj [("type", .str "string"), ("description", .str "Unique identifier for the card")]),
    ("title", .obj [("type", .str "string"), ("description", .str "Card title")]),
    ("description", .obj [("type", .str "string"), ("description", .str "Card description")]),
    ("status", .obj [("type", .str "string"),
      ("enum", .arr [.str "research", .str "in-progress", .str "done", .str "blocked", .str "planned"]),
      ("description", .str "Current status of the card")]),
    ("order", .obj [("type", .str "integer"), ("description", .str "Display order")]),
    ("tags", .obj [("type", .str "array"), ("items", .obj [("type", .str "string")])]),
    ("createdAt", .obj [("type", .str "string"), ("format", .str "date-time")]),
    ("updatedAt", .obj [("type", .str "string"), ("format", .str "date-time")]),
    ("completedAt", .obj [("type", .str "string"), ("format", .str "date-time")]) ]

/-- Modelled from the spec: the required-field list of the card item
(every wire field except the nullable `completedAt`, spec section 6). -/
def cardRequired : Json :=
  .arr [.str "id", .str "title", .str "description", .str "status", .str "order",
        .str "tags", .str "createdAt", .str "updatedAt"]

/-- A schema document with the `properties.cards.items` nesting of the
repository's schema, holding the given card properties and required
list. -/
def mkSchema (props : List (String × Json)) (req : Json) : Json :=
  .obj [ ("title", .str "Kanban Board Schema"),
         ("type", .str "object"),
         ("properties", .obj [
           ("cards", .obj [
             ("type", .str "array"),
             ("items", .obj [
               ("type", .str "object"),
               ("properties", .obj props),
               ("required", req) ]) ]) ]) ]

/-- Modelled from the spec: the full schema document. -/
def cardSchemaJson : Json := mkSchema cardProps cardRequired

/-- The model set derived from the repository's schema document. -/
def cardModels : Models :=
  ⟨cardFieldDefs cardProps cardRequired, updateFieldDefs cardProps⟩

/-- A stored metadata record of a typical card, as `add_cards` writes
it. -/
def sampleMeta : Meta :=
  [ ("id", "a1"), ("title", "T"), ("description", "D"), ("status", "planned"),
    ("order", "1"), ("tags", "[]"), ("createdAt", "100"), ("updatedAt", "100") ]


/-- A valid-JSON schema document that lacks the
`properties.cards.items.properties` path. -/
def c1BadDoc : Json :=
  .obj [ ("type", .str "object"),
         ("properties", .obj [("foo", .obj [("type", .str "string")])]) ]

/-- The loader and model state after a successful startup on the
repository schema. -/
def c1InitState : DynState := ⟨cardSchemaJson, cardModels⟩

/-- An injective stand-in for the `uuid.uuid4()` stream used in
witnesses. -/
def c8Gen (n : Nat) : String := String.mk (List.replicate (n + 1) 'u')

/-- A card creation request without an id, carrying uppercase tags. -/
def sampleCard : CardIn :=
  ⟨none, "Build API", "Implement the backend", "planned", 1, ["API", "Backend"], none, none⟩

/-! # Theorems -/

theorem decNatCore_append (xs ys : List Char) (acc : Nat) :
    decNatCore (xs ++ ys) acc = (decNatCore xs acc).bind (decNatCore ys) := by
  induction xs generalizing acc with
  | nil => simp [decNatCore]
  | cons c cs ih =>
    simp only [List.cons_append, decNatCore]
    cases digitVal? c with
    | none => simp
    | some d => simp [ih]

theorem digitVal?_digitChar (d : Nat) (h : d < 10) :
    digitVal? (digitChar d) = some d := by
  interval_cases d <;> decide

theorem natDigitsAux_zero (fuel : Nat) : natDigitsAux fuel 0 = [] := by
  cases fuel <;> simp [natDigitsAux]

theorem decNatCore_natDigitsAux (fuel : Nat) : ∀ n acc, 0 < n → n ≤ fuel →
    decNatCore (natDigitsAux fuel n) acc =
      some (acc * 10 ^ (natDigitsAux fuel n).length + n) := by
  induction fuel with
  | zero => intro n acc h1 h2; omega
  | succ fuel ih =>
    intro n acc h1 h2
    rw [natDigitsAux, if_neg (by omega)]
    have hr : n % 10 < 10 := Nat.mod_lt _ (by omega)
    rcases Nat.eq_zero_or_pos (n / 10) with hq | hq
    · rw [hq, natDigitsAux_zero, List.nil_append]
      simp only [decNatCore, digitVal?_digitChar _ hr, List.length_cons,
        List.length_nil, pow_one, zero_add, pow_zero, Option.some.injEq]
      have hdm := Nat.div_add_mod n 10
      omega
    · have hlt : n / 10 < n := Nat.div_lt_self h1 (by omega)
      have hle : n / 10 ≤ fuel := by omega
      rw [decNatCore_append, ih (n / 10) acc hq hle]
      simp only [Option.some_bind, decNatCore, digitVal?_digitChar _ hr,
        List.length_append, List.length_cons, List.length_nil, Option.some.injEq]
      have hdm := Nat.div_add_mod n 10
      rw [pow_succ, ← Nat.mul_assoc]
      set A := acc * 10 ^ (natDigitsAux fuel (n / 10)).length with hA
      omega

theorem natDigitsAux_ne_nil (fuel n : Nat) (h1 : 0 < n) (h2 : n ≤ fuel) :
    natDigitsAux fuel n ≠ [] := by
  cases fuel with
  | zero => omega
  | succ fuel => rw [natDigitsAux, if_neg (by omega)]; simp

theorem decNat_encNat (n : Nat) : decNat (encNat n) = some n := by
  by_cases h : n = 0
  · subst h; decide
  · have h1 : 0 < n := Nat.pos_of_ne_zero h
    have hne := natDigitsAux_ne_nil n n h1 le_rfl
    rw [encNat, if_neg h]
    cases hl : natDigitsAux n n with
    | nil => exact absurd hl hne
    | cons c cs =>
      have hstep : decNat (String.mk (c :: cs)) = decNatCore (c :: cs) 0 := rfl
      rw [hstep, ← hl, decNatCore_natDigitsAux n n 0 h1 le_rfl]
      simp

theorem decNat_head_digit (s : String) (n : Nat) (c : Char) (cs : List Char)
    (hd : decNat s = some n) (hl : s.toList = c :: cs) :
    (digitVal? c).isSome := by
  rw [decNat, hl] at hd
  simp only [decNatCore] at hd
  cases hdig : digitVal? c with
  | none => rw [hdig] at hd; simp at hd
  | some d => simp

theorem decInt_encInt (i : Int) : decInt (encInt i) = some i := by
  cases i with
  | ofNat n =>
    have hd := decNat_encNat n
    rw [encInt]
    cases hl : (encNat n).toList with
    | nil => rw [decNat, hl] at hd; simp at hd
    | cons c cs =>
      have hc : c ≠ '-' := by
        intro hceq
        have := decNat_head_digit (encNat n) n c cs hd hl
        rw [hceq] at this
        simp [digitVal?] at this
      simp only [decInt, hl, if_neg hc, hd]
      rfl
  | negSucc n =>
    have hd := decNat_encNat (n + 1)
    have hl : ("-" ++ encNat (n + 1)).toList = '-' :: (encNat (n + 1)).data := by
      show ("-" ++ encNat (n + 1)).data = _
      rw [String.data_append]
      rfl
    have hmk : String.mk (encNat (n + 1)).data = encNat (n + 1) := rfl
    simp only [encInt, decInt, hl, if_pos rfl, hmk, hd]
    simp [Int.negSucc_eq]

theorem encNat_ne_empty (n : Nat) : encNat n ≠ "" := by
  intro h
  have hd := decNat_encNat n
  rw [h] at hd
  simp [decNat] at hd

theorem encNat_ne_NoneStr (n : Nat) : encNat n ≠ "None" := by
  intro h
  have hd := decNat_encNat n
  rw [h] at hd
  have hnone : decNat "None" = none := by decide
  rw [hnone] at hd
  simp at hd

/-! ## Tags round trip and lowercasing -/

theorem tailChars_cons (t : String) (ts : List String) :
    tailChars (t :: ts) = ',' :: ' ' :: (reprListChars (t :: ts) ++ [']']) := rfl

theorem parseTags_cons (acc : List Char) (c : Char) (rest : List Char) :
    parseTags acc (c :: rest) =
      if c = quoteChar then
        match rest with
        | [']'] => some [String.mk acc.reverse]
        | ',' :: ' ' :: q :: rest2 =>
          if q = quoteChar then
            (parseTags [] rest2).map (fun ts => String.mk acc.reverse :: ts)
          else none
        | _ => none
      else parseTags (c :: acc) rest := by
  rw [parseTags.eq_def]

theorem parseTags_skip_no_quote (cs : List Char) : ∀ acc rest, quoteChar ∉ cs →
    parseTags acc (cs ++ quoteChar :: rest) = parseTags (cs.reverseAux acc) (quoteChar :: rest) := by
  induction cs with
  | nil => intro acc rest _; rfl
  | cons c cs ih =>
    intro acc rest h
    simp only [List.mem_cons, not_or] at h
    rw [List.cons_append, parseTags_cons, if_neg (fun hc => h.1 hc.symm)]
    exact ih (c :: acc) rest h.2

theorem reprListChars_decomp (t : String) (ts : List String) :
    reprListChars (t :: ts) ++ [']'] = quoteChar :: (t.data ++ quoteChar :: tailChars ts) := by
  cases ts with
  | nil => simp [reprListChars, reprTagChars, tailChars]
  | cons t2 ts2 => simp [reprListChars, reprTagChars, tailChars]

theorem parseTags_repr : ∀ (ts : List String) (t : String),
    quoteChar ∉ t.data → (∀ u ∈ ts, quoteChar ∉ u.data) →
    parseTags [] (t.data ++ quoteChar :: tailChars ts) = some (t :: ts) := by
  intro ts
  induction ts with
  | nil =>
    intro t ht _
    rw [parseTags_skip_no_quote t.data [] (tailChars []) ht]
    show parseTags (t.data.reverseAux []) (quoteChar :: [']']) = some [t]
    rw [parseTags_cons, if_pos rfl]
    simp only [List.reverseAux_eq, List.append_nil, List.reverse_reverse]
  | cons t2 ts2 ih =>
    intro t ht hts
    have ht2 : quoteChar ∉ t2.data := hts t2 (by simp)
    have hts2 : ∀ u ∈ ts2, quoteChar ∉ u.data := fun u hu => hts u (by simp [hu])
    rw [parseTags_skip_no_quote t.data [] (tailChars (t2 :: ts2)) ht]
    rw [tailChars_cons, reprListChars_decomp t2 ts2]
    rw [parseTags_cons, if_pos rfl]
    show (if quoteChar = quoteChar then
        (parseTags [] (t2.data ++ quoteChar :: tailChars ts2)).map
          (fun ts => String.mk (t.data.reverseAux []).reverse :: ts)
      else none) = some (t :: t2 :: ts2)
    rw [if_pos rfl, ih t2 ht2 hts2]
    simp only [List.reverseAux_eq, List.append_nil, List.reverse_reverse, Option.map_some]
    rfl

theorem pyEvalStrList_pyReprStrList (xs : List String)
    (h : ∀ t ∈ xs, quoteChar ∉ t.data) :
    pyEvalStrList (pyReprStrList xs) = some xs := by
  cases xs with
  | nil => decide
  | cons t ts =>
    have ht : quoteChar ∉ t.data := h t (by simp)
    have hts : ∀ u ∈ ts, quoteChar ∉ u.data := fun u hu => h u (by simp [hu])
    have htl : (pyReprStrList (t :: ts)).toList =
        '[' :: quoteChar :: (t.data ++ quoteChar :: tailChars ts) := by
      show ('[' :: reprListChars (t :: ts) ++ [']'] : List Char) = _
      rw [List.cons_append, reprListChars_decomp]
    have hq1 : (quoteChar = ']') = False := by decide
    simp only [pyEvalStrList, htl, if_pos rfl, hq1, if_false, if_true,
      parseTags_repr ts t ht hts]

theorem toNat_ofNat_valid (n : Nat) (h : n < 55296) : (Char.ofNat n).toNat = n := by
  have hv : n.isValidChar := Or.inl h
  rw [Char.ofNat, dif_pos hv]
  simp [Char.ofNatAux, Char.toNat, UInt32.toNat, BitVec.ofNatLt]

theorem toLower_ne_of_upper (c : Char) (h1 : 65 ≤ c.toNat) (h2 : c.toNat ≤ 90) :
    Char.toLower c ≠ c := by
  intro heq
  have h3 : (Char.toLower c).toNat = c.toNat := by rw [heq]
  rw [Char.toLower] at h3
  rw [if_pos ⟨h1, h2⟩] at h3
  rw [toNat_ofNat_valid (c.toNat + 32) (by omega)] at h3
  omega

theorem toLower_eq_self_of_not_upper (c : Char) (h : ¬(65 ≤ c.toNat ∧ c.toNat ≤ 90)) :
    Char.toLower c = c := by
  rw [Char.toLower, if_neg h]

theorem toLower_ne_quote (c : Char) (h : c ≠ quoteChar) : Char.toLower c ≠ quoteChar := by
  by_cases hu : 65 ≤ c.toNat ∧ c.toNat ≤ 90
  · rw [Char.toLower, if_pos hu]
    intro heq
    have := toNat_ofNat_valid (c.toNat + 32) (by omega)
    rw [heq] at this
    have hq : quoteChar.toNat = 39 := by decide
    omega
  · rw [toLower_eq_self_of_not_upper c hu]; exact h

theorem pyLower_no_quote (t : String) (h : quoteChar ∉ t.data) :
    quoteChar ∉ (pyLower t).data := by
  show quoteChar ∉ t.data.map Char.toLower
  intro hmem
  obtain ⟨c, hc, heq⟩ := List.mem_map.mp hmem
  exact toLower_ne_quote c (fun hcq => h (hcq ▸ hc)) heq

theorem map_toLower_fix (l : List Char) (h : l.map Char.toLower = l) :
    ∀ c ∈ l, Char.toLower c = c := by
  induction l with
  | nil => simp
  | cons a l ih =>
    intro c hcmem
    simp only [List.map_cons, List.cons.injEq] at h
    rcases List.mem_cons.mp hcmem with hca | hcl
    · rw [hca]; exact h.1
    · exact ih h.2 c hcl

theorem pyLower_ne_of_mem_upper (t : String)
    (h : ∃ c ∈ t.data, 65 ≤ c.toNat ∧ c.toNat ≤ 90) : pyLower t ≠ t := by
  obtain ⟨c, hc, hup⟩ := h
  intro heq
  have hdata : t.data.map Char.toLower = t.data := congrArg String.data heq
  exact toLower_ne_of_upper c hup.1 hup.2 (map_toLower_fix t.data hdata c hc)

/-! ## Round trip of a stored card through the read path -/

theorem parseCard_processCard (c : CardIn) (fresh : String) (now : Nat)
    (htags : ∀ t ∈ c.tags, quoteChar ∉ t.data) :
    parseCard (processCard c fresh now) =
      some ⟨assignedId c fresh, c.title, c.description, c.status, c.order,
            c.tags.map pyLower, c.createdAt.getD now, now, c.completedAt⟩ := by
  have hlow : ∀ u ∈ c.tags.map pyLower, quoteChar ∉ u.data := by
    intro u hu
    obtain ⟨t, ht, rfl⟩ := List.mem_map.mp hu
    exact pyLower_no_quote t (htags t ht)
  cases hca : c.completedAt with
  | none =>
    simp [processCard, stringifyMeta, stringifyVal, parseCard, mLookup, List.find?,
      decNat_encNat, decInt_encInt, pyEvalStrList_pyReprStrList _ hlow, hca]
  | some tm =>
    have h1 : (encNat tm == "") = false := by
      simp [encNat_ne_empty tm]
    have h2 : (encNat tm == "None") = false := by
      simp [encNat_ne_NoneStr tm]
    simp [processCard, stringifyMeta, stringifyVal, parseCard, mLookup, List.find?,
      decNat_encNat, decInt_encInt, pyEvalStrList_pyReprStrList _ hlow, hca, h1, h2]

/-! ## Stored-metadata effect of `update_card` -/

theorem mLookup_stringifyMeta_of_not_mem (l : List (String × PyVal)) (k : String)
    (h : k ∉ l.map Prod.fst) : mLookup (stringifyMeta l) k = none := by
  induction l with
  | nil => rfl
  | cons p l ih =>
    simp only [List.map_cons, List.mem_cons, not_or] at h
    cases hv : stringifyVal p.1 p.2 with
    | none => simp only [stringifyMeta, List.filterMap_cons, hv]; exact ih h.2
    | some s =>
      simp only [stringifyMeta, List.filterMap_cons, hv, Option.map_some]
      simp only [mLookup, List.find?]
      have : (p.1 == k) = false := by
        simp only [beq_eq_false_iff_ne, ne_eq]
        exact fun he => h.1 he.symm
      rw [this]
      exact ih h.2

theorem mLookup_stringifyMeta (l : List (String × PyVal)) (k : String)
    (hnd : (l.map Prod.fst).Nodup) :
    mLookup (stringifyMeta l) k = (pvLookup l k).bind (stringifyVal k) := by
  induction l with
  | nil => rfl
  | cons p l ih =>
    simp only [List.map_cons, List.nodup_cons] at hnd
    have hmeta : mLookup (stringifyMeta l) k = (pvLookup l k).bind (stringifyVal k) :=
      ih hnd.2
    by_cases hpk : p.1 = k
    · subst hpk
      cases hv : stringifyVal p.1 p.2 with
      | none =>
        have hnone : mLookup (stringifyMeta l) p.1 = none :=
          mLookup_stringifyMeta_of_not_mem l p.1 hnd.1
        simp [stringifyMeta, List.filterMap_cons, hv, pvLookup, List.find?] at hnone ⊢
        simpa [stringifyMeta] using hnone
      | some s =>
        simp [stringifyMeta, List.filterMap_cons, hv, mLookup, pvLookup, List.find?]
    · have hbeq : (p.1 == k) = false := by simp [hpk]
      cases hv : stringifyVal p.1 p.2 with
      | none =>
        simp only [stringifyMeta, List.filterMap_cons, hv, pvLookup, List.find?, hbeq]
        exact hmeta
      | some s =>
        simp only [stringifyMeta, List.filterMap_cons, hv, Option.map_some, mLookup,
          List.find?, hbeq, pvLookup]
        exact hmeta

theorem find?_map_key_preserving (l : List (String × String)) (k : String)
    (g : String × String → String × PyVal) (hg : ∀ p, (g p).1 = p.1) :
    (l.map g).find? (fun q => q.1 == k) = (l.find? (fun p => p.1 == k)).map g := by
  induction l with
  | nil => rfl
  | cons p l ih =>
    simp only [List.map_cons, List.find?]
    rw [hg p]
    cases hbeq : (p.1 == k) with
    | true => simp
    | false => simpa using ih

theorem find?_filter_keeps_key (l : List (String × PyVal)) (k : String)
    (P : String × PyVal → Bool) (hP : ∀ q, q.1 = k → P q = true) :
    (l.filter P).find? (fun q => q.1 == k) = l.find? (fun q => q.1 == k) := by
  induction l with
  | nil => rfl
  | cons q l ih =>
    by_cases hqk : q.1 = k
    · have hPq := hP q hqk
      simp only [List.filter_cons, hPq, if_true, List.find?]
      have : (q.1 == k) = true := by simp [hqk]
      rw [this]
    · have hbeq : (q.1 == k) = false := by simp [hqk]
      cases hPq : P q with
      | true => simp only [List.filter_cons, hPq, if_true, List.find?, hbeq]; exact ih
      | false => simp only [List.filter_cons, hPq, if_false, List.find?, hbeq]; exact ih

theorem mLookup_eq_none_iff (m : Meta) (k : String) :
    mLookup m k = none ↔ k ∉ m.map Prod.fst := by
  constructor
  · intro h hk
    obtain ⟨p, hp, hpk⟩ := List.mem_map.mp hk
    rw [mLookup] at h
    have hfind := List.find?_eq_none.mp (by
      cases hf : m.find? (fun p => p.1 == k) with
      | none => rfl
      | some q => rw [hf] at h; simp at h)
    have := hfind p hp
    simp [hpk] at this
  · intro h
    rw [mLookup, List.find?_eq_none.mpr]
    · rfl
    · intro a ha he0
      exact h (List.mem_map.mpr ⟨a, ha, by simpa using he0⟩)

theorem dictUpdatePV_fst (upd : List (String × PyVal)) (p : String × String) :
    ((match upd.find? (fun q => q.1 == p.1) with
      | some q => (p.1, q.2)
      | none => (p.1, PyVal.vstr p.2)) : String × PyVal).1 = p.1 := by
  cases upd.find? (fun q => q.1 == p.1) <;> rfl

theorem pvLookup_dictUpdatePV_of_none (m : Meta) (upd : List (String × PyVal)) (k : String)
    (h : mLookup m k = none) :
    pvLookup (dictUpdatePV m upd) k = pvLookup upd k := by
  have hk : k ∉ m.map Prod.fst := (mLookup_eq_none_iff m k).mp h
  unfold dictUpdatePV pvLookup
  rw [List.find?_append]
  have h1 : (m.map (fun p =>
      match upd.find? (fun q => q.1 == p.1) with
      | some q => (p.1, q.2)
      | none => (p.1, PyVal.vstr p.2))).find? (fun q => q.1 == k) = none := by
    rw [List.find?_eq_none]
    intro a ha
    obtain ⟨p, hp, rfl⟩ := List.mem_map.mp ha
    have hne : p.1 ≠ k := fun he => hk (List.mem_map.mpr ⟨p, hp, he⟩)
    rw [dictUpdatePV_fst]
    simpa using hne
  rw [h1]
  simp only [Option.none_or]
  rw [find?_filter_keeps_key]
  intro q hq
  have hany : (m.any fun p => p.1 == q.1) = false := by
    rw [List.any_eq_false]
    intro p hp he
    exact hk (List.mem_map.mpr ⟨p, hp, hq ▸ eq_of_beq he⟩)
  simp [hany]

theorem pvLookup_dictUpdatePV_of_some (m : Meta) (upd : List (String × PyVal))
    (k : String) (v : String) (h : mLookup m k = some v) :
    pvLookup (dictUpdatePV m upd) k = some ((pvLookup upd k).getD (PyVal.vstr v)) := by
  unfold dictUpdatePV pvLookup
  rw [List.find?_append]
  obtain ⟨p, hfp, hmap⟩ : ∃ p, m.find? (fun p => p.1 == k) = some p ∧ p.2 = v := by
    unfold mLookup at h
    cases hf : m.find? (fun p => p.1 == k) with
    | none => rw [hf] at h; simp at h
    | some p => rw [hf] at h; exact ⟨p, rfl, by simpa using h⟩
  have hpk : p.1 = k := by
    have := List.find?_some hfp
    simpa using this
  have h1 := find?_map_key_preserving m k
    (fun p =>
      match upd.find? (fun q => q.1 == p.1) with
      | some q => (p.1, q.2)
      | none => (p.1, PyVal.vstr p.2))
    (fun p => dictUpdatePV_fst upd p)
  rw [h1, hfp]
  show (Option.map Prod.snd (some
      (match upd.find? (fun q => q.1 == p.1) with
       | some q => (p.1, q.2)
       | none => (p.1, PyVal.vstr p.2)))).or
      (Option.map Prod.snd (List.find? (fun p => p.1 == k)
        (upd.filter (fun q => !(m.any (fun p => p.1 == q.1)))))) = _
  rw [hpk, hmap]
  cases hfq : upd.find? (fun q => q.1 == k) <;> simp [hfq]

theorem find?_map_key_preserving' (l : List (String × PyVal)) (k : String)
    (g : String × PyVal → String × PyVal) (hg : ∀ p, (g p).1 = p.1) :
    (l.map g).find? (fun q => q.1 == k) = (l.find? (fun p => p.1 == k)).map g := by
  induction l with
  | nil => rfl
  | cons p l ih =>
    simp only [List.map_cons, List.find?]
    rw [hg p]
    cases hbeq : (p.1 == k) with
    | true => simp
    | false => simpa using ih

theorem pvLookup_setKeyPV_other (upd : List (String × PyVal)) (k0 k : String) (v : PyVal)
    (h : k ≠ k0) : pvLookup (setKeyPV upd k0 v) k = pvLookup upd k := by
  unfold setKeyPV
  by_cases hmem : upd.any (fun p => p.1 == k0)
  · rw [if_pos hmem]
    unfold pvLookup
    rw [find?_map_key_preserving' upd k (fun p => if p.1 == k0 then (p.1, v) else p)
      (fun p => by by_cases hp : p.1 == k0 <;> simp [hp])]
    cases hf : upd.find? (fun p => p.1 == k) with
    | none => simp
    | some p =>
      have hpk : p.1 = k := by simpa using List.find?_some hf
      have hcond : ¬(p.1 = k0) := fun he => h (hpk.symm.trans he)
      simp [hcond]
  · rw [if_neg hmem]
    unfold pvLookup
    rw [List.find?_append]
    cases hf : upd.find? (fun p => p.1 == k) with
    | none =>
      have : ([(k0, v)].find? (fun p => p.1 == k)) = none := by
        simp [List.find?, show (k0 == k) = false by simpa using fun he => h (eq_of_beq he).symm]
      simp [this]
    | some p => simp

theorem pvLookup_setKeyPV_self (upd : List (String × PyVal)) (k0 : String) (v : PyVal) :
    pvLookup (setKeyPV upd k0 v) k0 = some v := by
  unfold setKeyPV
  by_cases hmem : upd.any (fun p => p.1 == k0)
  · rw [if_pos hmem]
    unfold pvLookup
    rw [find?_map_key_preserving' upd k0 (fun p => if p.1 == k0 then (p.1, v) else p)
      (fun p => by by_cases hp : p.1 == k0 <;> simp [hp])]
    obtain ⟨p, hp, hpk⟩ := List.any_eq_true.mp hmem
    have hsome : (upd.find? (fun p => p.1 == k0)).isSome := by
      rw [List.find?_isSome]
      exact ⟨p, hp, hpk⟩
    obtain ⟨q, hq⟩ := Option.isSome_iff_exists.mp hsome
    have hqk := List.find?_some hq
    simp only [hq, Option.map_some]
    simp at hqk
    simp [hqk]
  · rw [if_neg hmem]
    unfold pvLookup
    rw [List.find?_append]
    have hf : upd.find? (fun p => p.1 == k0) = none := by
      rw [List.find?_eq_none]
      intro a ha hbeq
      exact hmem (List.any_eq_true.mpr ⟨a, ha, hbeq⟩)
    simp [hf, List.find?]

theorem pvLookup_eq_none_of_not_mem (l : List (String × PyVal)) (k : String)
    (h : k ∉ l.map Prod.fst) : pvLookup l k = none := by
  unfold pvLookup
  rw [List.find?_eq_none.mpr]
  · rfl
  · intro a ha hbeq
    exact h (List.mem_map.mpr ⟨a, ha, eq_of_beq hbeq⟩)

theorem keys_setKeyPV_nodup (upd : List (String × PyVal)) (k0 : String) (v : PyVal)
    (hu : (upd.map Prod.fst).Nodup) :
    ((setKeyPV upd k0 v).map Prod.fst).Nodup := by
  unfold setKeyPV
  by_cases hmem : upd.any (fun p => p.1 == k0)
  · rw [if_pos hmem]
    have hkeys : (upd.map (fun p => if p.1 == k0 then (p.1, v) else p)).map Prod.fst =
        upd.map Prod.fst := by
      rw [List.map_map]
      apply List.map_congr_left
      intro p _
      by_cases hp : p.1 = k0 <;> simp [hp]
    rw [hkeys]
    exact hu
  · rw [if_neg hmem]
    rw [List.map_append]
    rw [List.nodup_append]
    refine ⟨hu, by simp, ?_⟩
    intro a ha
    simp only [List.map_cons, List.map_nil, List.mem_singleton]
    intro hk0
    obtain ⟨p, hp, hpk⟩ := List.mem_map.mp ha
    exact hmem (List.any_eq_true.mpr ⟨p, hp, by simp [hpk, hk0]⟩)

theorem keys_dictUpdatePV_nodup (m : Meta) (upd : List (String × PyVal))
    (hm : (m.map Prod.fst).Nodup) (hu : (upd.map Prod.fst).Nodup) :
    ((dictUpdatePV m upd).map Prod.fst).Nodup := by
  unfold dictUpdatePV
  rw [List.map_append, List.nodup_append]
  have hkeys1 : (m.map (fun p =>
      match upd.find? (fun q => q.1 == p.1) with
      | some q => (p.1, q.2)
      | none => (p.1, PyVal.vstr p.2))).map Prod.fst = m.map Prod.fst := by
    rw [List.map_map]
    apply List.map_congr_left
    intro p _
    exact dictUpdatePV_fst upd p
  refine ⟨by rw [hkeys1]; exact hm, ?_, ?_⟩
  · exact ((upd.filter_sublist).map Prod.fst).nodup hu
  · intro a ha hb
    rw [hkeys1] at ha
    obtain ⟨q, hq, hqk⟩ := List.mem_map.mp hb
    have hqf := List.of_mem_filter hq
    simp only [Bool.not_eq_true', List.any_eq_false] at hqf
    obtain ⟨p, hp, hpk⟩ := List.mem_map.mp ha
    have := hqf p hp
    rw [hqk] at this
    rw [hpk] at this
    simp at this

theorem mLookup_update_other (m : Meta) (upd : List (String × PyVal)) (now : Nat)
    (k : String) (hm : (m.map Prod.fst).Nodup) (hu : (upd.map Prod.fst).Nodup)
    (hk1 : k ∉ upd.map Prod.fst) (hk2 : k ≠ "updatedAt") :
    mLookup (update_card_meta m upd now) k = mLookup m k := by
  by_cases hempty : upd.isEmpty
  · simp [update_card_meta, hempty]
  · unfold update_card_meta
    rw [if_neg hempty]
    set upd1 := if m.any (fun p => p.1 == "updatedAt") then
      setKeyPV upd "updatedAt" (.vstr (encNat now)) else upd with hupd1
    have hu1 : (upd1.map Prod.fst).Nodup := by
      rw [hupd1]
      split
      · exact keys_setKeyPV_nodup upd "updatedAt" _ hu
      · exact hu
    have hlk : pvLookup upd1 k = none := by
      rw [hupd1]
      split
      · rw [pvLookup_setKeyPV_other upd "updatedAt" k _ hk2]
        exact pvLookup_eq_none_of_not_mem upd k hk1
      · exact pvLookup_eq_none_of_not_mem upd k hk1
    rw [mLookup_stringifyMeta _ k (keys_dictUpdatePV_nodup m upd1 hm hu1)]
    cases hmk : mLookup m k with
    | none => rw [pvLookup_dictUpdatePV_of_none m upd1 k hmk, hlk]; rfl
    | some v =>
      rw [pvLookup_dictUpdatePV_of_some m upd1 k v hmk, hlk]
      rfl

theorem mLookup_update_payload (m : Meta) (upd : List (String × PyVal)) (now : Nat)
    (k s : String) (hm : (m.map Prod.fst).Nodup) (hu : (upd.map Prod.fst).Nodup)
    (hk2 : k ≠ "updatedAt") (hupd : pvLookup upd k = some (.vstr s)) :
    mLookup (update_card_meta m upd now) k = some s := by
  have hempty : upd.isEmpty = false := by
    cases upd with
    | nil => simp [pvLookup] at hupd
    | cons p l => rfl
  unfold update_card_meta
  rw [hempty]
  simp only [Bool.false_eq_true, if_false]
  set upd1 := if m.any (fun p => p.1 == "updatedAt") then
    setKeyPV upd "updatedAt" (.vstr (encNat now)) else upd with hupd1
  have hu1 : (upd1.map Prod.fst).Nodup := by
    rw [hupd1]
    split
    · exact keys_setKeyPV_nodup upd "updatedAt" _ hu
    · exact hu
  have hlk : pvLookup upd1 k = some (.vstr s) := by
    rw [hupd1]
    split
    · rw [pvLookup_setKeyPV_other upd "updatedAt" k _ hk2]
      exact hupd
    · exact hupd
  rw [mLookup_stringifyMeta _ k (keys_dictUpdatePV_nodup m upd1 hm hu1)]
  cases hmk : mLookup m k with
  | none => rw [pvLookup_dictUpdatePV_of_none m upd1 k hmk, hlk]; rfl
  | some v =>
    rw [pvLookup_dictUpdatePV_of_some m upd1 k v hmk, hlk]
    rfl

theorem mLookup_update_updatedAt (m : Meta) (upd : List (String × PyVal)) (now : Nat)
    (hm : (m.map Prod.fst).Nodup) (hu : (upd.map Prod.fst).Nodup)
    (hne : upd.isEmpty = false) (hhas : m.any (fun p => p.1 == "updatedAt") = true) :
    mLookup (update_card_meta m upd now) "updatedAt" = some (encNat now) := by
  unfold update_card_meta
  rw [hne]
  simp only [Bool.false_eq_true, if_false]
  rw [if_pos hhas]
  set upd1 := setKeyPV upd "updatedAt" (.vstr (encNat now)) with hupd1
  have hu1 : (upd1.map Prod.fst).Nodup := keys_setKeyPV_nodup upd "updatedAt" _ hu
  have hlk : pvLookup upd1 "updatedAt" = some (.vstr (encNat now)) :=
    pvLookup_setKeyPV_self upd "updatedAt" _
  rw [mLookup_stringifyMeta _ _ (keys_dictUpdatePV_nodup m upd1 hm hu1)]
  cases hmk : mLookup m "updatedAt" with
  | none => rw [pvLookup_dictUpdatePV_of_none m upd1 _ hmk, hlk]; rfl
  | some v =>
    rw [pvLookup_dictUpdatePV_of_some m upd1 _ v hmk, hlk]
    rfl

/-! ## Claim C1 -/

theorem create_models_error_of_missing_path (j : Json)
    (h : hasCardPropertiesPath j = false) :
    ∃ e, create_models j = .error e := by
  unfold hasCardPropertiesPath at h
  cases hgcp : get_card_properties j with
  | ok v => rw [hgcp] at h; simp at h
  | error e =>
    by_cases ht : j.truthy
    · refine ⟨e, ?_⟩
      unfold create_models get_schema
      rw [if_pos ht, hgcp]
      rfl
    · refine ⟨"Schema not loaded", ?_⟩
      unfold create_models get_schema
      rw [if_neg ht]
      rfl

/-- C1 (amended): for every valid-JSON schema document missing the
`properties.cards.items.properties` path, the reload operation fails
(the error is surfaced to the caller) and the previously derived models
remain active; but the in-memory schema data does not remain the
previous schema — it is replaced by the malformed document. -/
theorem C1_reload_missing_path (st : DynState) (j : Json)
    (h : hasCardPropertiesPath j = false) :
    (reload_models_op st (.parsed j)).2.isSome = true ∧
    (reload_models_op st (.parsed j)).1.models = st.models ∧
    (reload_models_op st (.parsed j)).1.schema_data = j := by
  obtain ⟨e, he⟩ := create_models_error_of_missing_path j h
  have hred : reload_models_op st (.parsed j) =
      (match create_models j with
       | .error e => ({ st with schema_data := j }, some e)
       | .ok ms => ({ schema_data := j, models := ms }, none)) := rfl
  rw [hred, he]
  exact ⟨rfl, rfl, rfl⟩

/-- C1 witness: the amended behaviour at a concrete malformed
document. -/
theorem C1_reload_missing_path_witness :
    hasCardPropertiesPath c1BadDoc = false ∧
    ((reload_models_op c1InitState (.parsed c1BadDoc)).2.isSome = true ∧
     (reload_models_op c1InitState (.parsed c1BadDoc)).1.models = c1InitState.models ∧
     (reload_models_op c1InitState (.parsed c1BadDoc)).1.schema_data = c1BadDoc) :=
  ⟨by decide, C1_reload_missing_path c1InitState c1BadDoc (by decide)⟩

/-- C1 counterexample: starting from the loaded repository schema, a
reload that reads a valid-JSON document without the card-properties
path does fail, but the previous schema does not remain the active
in-memory schema: `schema_data` now holds the malformed document. -/
theorem C1_counterexample :
    (reload_models_op c1InitState (.parsed c1BadDoc)).2.isSome = true ∧
    (reload_models_op c1InitState (.parsed c1BadDoc)).1.schema_data ≠
      c1InitState.schema_data := by
  refine ⟨by decide, fun h => ?_⟩
  have h1 : hasCardPropertiesPath
      (reload_models_op c1InitState (.parsed c1BadDoc)).1.schema_data = false := by
    decide
  have h2 : hasCardPropertiesPath c1InitState.schema_data = true := by decide
  rw [h] at h1
  exact Bool.noConfusion (h1.symm.trans h2)

/-! ## Claim C2 -/

/-- C2 counterexample: a stored card updated with a payload whose only
set field is `status` does not keep every other field byte-identical:
the stored `updatedAt` value changes. -/
theorem C2_counterexample :
    mLookup (update_card_meta sampleMeta [("status", PyVal.vstr "done")] 101) "updatedAt" ≠
      mLookup sampleMeta "updatedAt" := by
  decide

/-- C2 (amended): for every stored record and update payload whose only
set field is `status`, the update leaves every field other than
`status` and `updatedAt` byte-identical to its pre-update value, stores
the payload's status value, and refreshes `updatedAt` to the update
time whenever the record carries that key. -/
theorem C2_status_update_frame (m : Meta) (v : String) (now : Nat)
    (hm : (m.map Prod.fst).Nodup) :
    (∀ k, k ≠ "status" → k ≠ "updatedAt" →
      mLookup (update_card_meta m [("status", .vstr v)] now) k = mLookup m k) ∧
    mLookup (update_card_meta m [("status", .vstr v)] now) "status" = some v ∧
    (m.any (fun p => p.1 == "updatedAt") = true →
      mLookup (update_card_meta m [("status", .vstr v)] now) "updatedAt" =
        some (encNat now)) := by
  refine ⟨?_, ?_, ?_⟩
  · intro k hks hku
    exact mLookup_update_other m [("status", .vstr v)] now k hm (by simp)
      (by simpa using fun he => hks he) hku
  · exact mLookup_update_payload m [("status", .vstr v)] now "status" v hm (by simp)
      (by decide) (by simp [pvLookup, List.find?])
  · intro hhas
    exact mLookup_update_updatedAt m [("status", .vstr v)] now hm (by simp) rfl hhas

/-- C2 witness: the amended frame property at a concrete record. -/
theorem C2_status_update_frame_witness :
    (sampleMeta.map Prod.fst).Nodup ∧
    ((∀ k, k ≠ "status" → k ≠ "updatedAt" →
      mLookup (update_card_meta sampleMeta [("status", .vstr "done")] 101) k =
        mLookup sampleMeta k) ∧
    mLookup (update_card_meta sampleMeta [("status", .vstr "done")] 101) "status" =
      some "done" ∧
    (sampleMeta.any (fun p => p.1 == "updatedAt") = true →
      mLookup (update_card_meta sampleMeta [("status", .vstr "done")] 101) "updatedAt" =
        some (encNat 101))) :=
  ⟨by decide, C2_status_update_frame sampleMeta "done" 101 (by decide)⟩

/-! ## Claim C3 -/

/-- C3 counterexample: the dynamic `CardUpdate` model derived from the
schema types `status` as a plain optional string, so the value
`"archived"` — not in the schema's status enumeration — passes request
validation, and the store-level update then records it verbatim. -/
theorem C3_counterexample :
    (updateFieldDefs cardProps).find? (fun f => f.1 == "status") =
      some ("status", ⟨PyType.pstr, false⟩) ∧
    mcpValidStatuses.contains "archived" = false ∧
    (update_endpoint (updateFieldDefs cardProps) sampleMeta
        [("status", PyVal.vstr "archived")] 101).isSome = true ∧
    mLookup ((update_endpoint (updateFieldDefs cardProps) sampleMeta
        [("status", PyVal.vstr "archived")] 101).getD []) "status" = some "archived" := by
  decide

/-- C3 (amended): the MCP tool layer normalizes a status outside
`_VALID_STATUSES` to the fallback `"planned"` before calling the API,
but the store-level update operation applies the payload verbatim: any
status string that reaches it — as an out-of-enumeration status does
through the HTTP update endpoint, whose derived model types status as a
plain string — is stored unchanged. -/
theorem C3_status_policy (s : String) (hs : mcpValidStatuses.contains s = false) :
    mcp_update_status s = "planned" ∧
    (∀ (m : Meta) (now : Nat), (m.map Prod.fst).Nodup →
      mLookup (update_card_meta m [("status", PyVal.vstr s)] now) "status" = some s) := by
  constructor
  · have hns : s ∉ mcpValidStatuses := by simpa using hs
    simp [mcp_update_status, hns]
  · intro m now hm
    exact mLookup_update_payload m [("status", .vstr s)] now "status" s hm (by simp)
      (by decide) (by simp [pvLookup, List.find?])

/-- C3 witness: the policy at the concrete invalid status
`"archived"`. -/
theorem C3_status_policy_witness :
    mcpValidStatuses.contains "archived" = false ∧
    (mcp_update_status "archived" = "planned" ∧
    (∀ (m : Meta) (now : Nat), (m.map Prod.fst).Nodup →
      mLookup (update_card_meta m [("status", PyVal.vstr "archived")] now) "status" =
        some "archived")) :=
  ⟨by decide, C3_status_policy "archived" (by decide)⟩

/-! ## Claim C9 -/

theorem any_key_of_mLookup_some (m : Meta) (k v : String) (h : mLookup m k = some v) :
    m.any (fun p => p.1 == k) = true := by
  unfold mLookup at h
  cases hf : m.find? (fun p => p.1 == k) with
  | none => rw [hf] at h; simp at h
  | some p =>
    have hmem := List.mem_of_find?_eq_some hf
    have hbeq := List.find?_some hf
    exact List.any_eq_true.mpr ⟨p, hmem, hbeq⟩

/-- C9: `createdAt` is written once at creation (`add_cards` keeps a
provided value and otherwise stamps the creation time) and no update
can alter it — the derived `CardUpdate` model has no `createdAt` field,
and the merge leaves keys outside the payload untouched; `updatedAt` is
stamped at creation and refreshed to the update time by every
non-empty update, so it never moves backwards when the clock does
not. -/
theorem C9_timestamp_discipline (m : Meta) (upd : List (String × PyVal)) (now : Nat)
    (hm : (m.map Prod.fst).Nodup) (hu : (upd.map Prod.fst).Nodup)
    (hcr : "createdAt" ∉ upd.map Prod.fst) :
    (∀ (c : CardIn) (fresh : String),
      mLookup (processCard c fresh now) "createdAt" =
        some (encNat (c.createdAt.getD now)) ∧
      mLookup (processCard c fresh now) "updatedAt" = some (encNat now)) ∧
    "createdAt" ∉ (updateFieldDefs cardProps).map Prod.fst ∧
    mLookup (update_card_meta m upd now) "createdAt" = mLookup m "createdAt" ∧
    (upd.isEmpty = false → m.any (fun p => p.1 == "updatedAt") = true →
      mLookup (update_card_meta m upd now) "updatedAt" = some (encNat now)) ∧
    (∀ t0, mLookup m "updatedAt" = some (encNat t0) → t0 ≤ now →
      upd.isEmpty = false →
      ∃ t1, mLookup (update_card_meta m upd now) "updatedAt" = some (encNat t1) ∧
        t0 ≤ t1) := by
  refine ⟨?_, by decide, ?_, ?_, ?_⟩
  · intro c fresh
    cases hca : c.completedAt with
    | none => simp [processCard, stringifyMeta, stringifyVal, mLookup, List.find?, hca]
    | some tm => simp [processCard, stringifyMeta, stringifyVal, mLookup, List.find?, hca]
  · exact mLookup_update_other m upd now "createdAt" hm hu hcr (by decide)
  · intro hne hhas
    exact mLookup_update_updatedAt m upd now hm hu hne hhas
  · intro t0 h0 hle hne
    refine ⟨now, ?_, hle⟩
    exact mLookup_update_updatedAt m upd now hm hu hne
      (any_key_of_mLookup_some m "updatedAt" (encNat t0) h0)

/-- C9 witness: the timestamp discipline at a concrete record and
update. -/
theorem C9_timestamp_discipline_witness :
    ((sampleMeta.map Prod.fst).Nodup ∧
     ([("status", PyVal.vstr "done")].map Prod.fst).Nodup ∧
     "createdAt" ∉ [("status", PyVal.vstr "done")].map Prod.fst) ∧
    (mLookup (update_card_meta sampleMeta [("status", PyVal.vstr "done")] 101) "createdAt" =
      mLookup sampleMeta "createdAt" ∧
     mLookup (update_card_meta sampleMeta [("status", PyVal.vstr "done")] 101) "updatedAt" =
      some (encNat 101)) := by
  refine ⟨⟨by decide, by decide, by decide⟩, ?_, ?_⟩
  · exact (C9_timestamp_discipline sampleMeta [("status", PyVal.vstr "done")] 101
      (by decide) (by decide) (by decide)).2.2.1
  · exact (C9_timestamp_discipline sampleMeta [("status", PyVal.vstr "done")] 101
      (by decide) (by decide) (by decide)).2.2.2.1 rfl (by decide)

/-! ## Claims C4 and C5 -/

theorem create_models_mkSchema (props : List (String × Json)) (req : Json)
    (hne : props ≠ []) :
    create_models (mkSchema props req) =
      .ok ⟨cardFieldDefs props req, updateFieldDefs props⟩ := by
  cases props with
  | nil => exact absurd rfl hne
  | cons p ps => rfl

theorem get_python_type_unrecognized (spec : Json) (h : typeRecognized spec = false) :
    get_python_type spec = PyType.pany := by
  cases spec with
  | null => rfl
  | bool b => rfl
  | num n => rfl
  | str s => rfl
  | arr xs => rfl
  | obj fs =>
    simp only [typeRecognized, Bool.or_eq_false_iff] at h
    obtain ⟨⟨⟨h1, h2⟩, h3⟩, h4⟩ := h
    simp only [get_python_type, h1, h2, h3, h4, Bool.false_eq_true, if_false]

/-- C4: a schema in which exactly one property carries an unrecognized
`type` still derives successfully; the offending property degrades to
the open `Any` type (with its required flag intact) while every other
property is derived by the normal type mapping. -/
theorem C4_unknown_type_degrades (l₁ l₂ : List (String × Json)) (name : String)
    (spec req : Json) (hbad : typeRecognized spec = false)
    (_hrest : ∀ p ∈ l₁ ++ l₂, typeRecognized p.2 = true) :
    create_models (mkSchema (l₁ ++ (name, spec) :: l₂) req) =
      .ok ⟨cardFieldDefs l₁ req ++
            (name, ⟨PyType.pany, requiredContains req name⟩) :: cardFieldDefs l₂ req,
           updateFieldDefs (l₁ ++ (name, spec) :: l₂)⟩ := by
  rw [create_models_mkSchema _ req (by simp)]
  simp [cardFieldDefs, get_python_type_unrecognized spec hbad]

/-- C4 witness: a three-property schema whose middle property has the
unrecognized type `custom`. -/
theorem C4_unknown_type_degrades_witness :
    typeRecognized (Json.obj [("type", Json.str "custom")]) = false ∧
    (∀ p ∈ ([("title", Json.obj [("type", Json.str "string")])] ++
            [("order", Json.obj [("type", Json.str "integer")])] :
            List (String × Json)), typeRecognized p.2 = true) ∧
    create_models (mkSchema ([("title", Json.obj [("type", Json.str "string")])] ++
        ("custom_field", Json.obj [("type", Json.str "custom")]) ::
        [("order", Json.obj [("type", Json.str "integer")])]) (Json.arr [Json.str "title"])) =
      .ok ⟨cardFieldDefs [("title", Json.obj [("type", Json.str "string")])]
              (Json.arr [Json.str "title"]) ++
            ("custom_field", ⟨PyType.pany,
              requiredContains (Json.arr [Json.str "title"]) "custom_field"⟩) ::
            cardFieldDefs [("order", Json.obj [("type", Json.str "integer")])]
              (Json.arr [Json.str "title"]),
           updateFieldDefs ([("title", Json.obj [("type", Json.str "string")])] ++
             ("custom_field", Json.obj [("type", Json.str "custom")]) ::
             [("order", Json.obj [("type", Json.str "integer")])])⟩ :=
  ⟨by decide, by decide,
    C4_unknown_type_degrades [("title", Json.obj [("type", Json.str "string")])]
      [("order", Json.obj [("type", Json.str "integer")])] "custom_field"
      (Json.obj [("type", Json.str "custom")]) (Json.arr [Json.str "title"])
      (by decide) (by decide)⟩

theorem updateFieldDefs_names (props : List (String × Json)) :
    (updateFieldDefs props).map Prod.fst =
      (props.map Prod.fst).filter (fun n => !(n == "id" || n == "createdAt")) := by
  induction props with
  | nil => rfl
  | cons p l ih =>
    by_cases hid : p.1 == "id" || p.1 == "createdAt"
    · simp only [updateFieldDefs, List.filterMap_cons, hid, if_true, List.map_cons,
        List.filter_cons, Bool.not_true, Bool.false_eq_true, if_false]
      exact ih
    · simp only [updateFieldDefs, List.filterMap_cons, hid, Bool.false_eq_true, if_false,
        List.map_cons, List.filter_cons, Bool.not_false, if_true]
      rw [← ih]
      rfl

theorem updateFieldDefs_optional (props : List (String × Json)) :
    ∀ f ∈ updateFieldDefs props, f.2.required = false := by
  intro f hf
  obtain ⟨p, _, hp⟩ := List.mem_filterMap.mp hf
  by_cases hid : p.1 == "id" || p.1 == "createdAt"
  · simp [hid] at hp
  · simp only [hid, Bool.false_eq_true, if_false, Option.some.injEq] at hp
    rw [← hp]

/-- C5: the derived `CardUpdate` model has exactly the schema's card
properties minus `id` and `createdAt` (in schema order), every one of
its fields is optional, and each kept property keeps its normally
mapped type. -/
theorem C5_card_update_shape (props : List (String × Json)) (req : Json)
    (hne : props ≠ []) :
    ∃ ms, create_models (mkSchema props req) = .ok ms ∧
      ms.cardUpdate.map Prod.fst =
        (props.map Prod.fst).filter (fun n => !(n == "id" || n == "createdAt")) ∧
      (∀ f ∈ ms.cardUpdate, f.2.required = false) ∧
      (∀ p ∈ props, p.1 ≠ "id" → p.1 ≠ "createdAt" →
        (p.1, FieldDef.mk (get_python_type p.2) false) ∈ ms.cardUpdate) := by
  refine ⟨⟨cardFieldDefs props req, updateFieldDefs props⟩,
    create_models_mkSchema props req hne, updateFieldDefs_names props,
    updateFieldDefs_optional props, ?_⟩
  intro p hp h1 h2
  apply List.mem_filterMap.mpr
  refine ⟨p, hp, ?_⟩
  rw [if_neg]
  simp [h1, h2]

/-- C5 witness: the update-model shape on the repository schema. -/
theorem C5_card_update_shape_witness :
    cardProps ≠ [] ∧
    ∃ ms, create_models (mkSchema cardProps cardRequired) = .ok ms ∧
      ms.cardUpdate.map Prod.fst =
        (cardProps.map Prod.fst).filter (fun n => !(n == "id" || n == "createdAt")) ∧
      (∀ f ∈ ms.cardUpdate, f.2.required = false) ∧
      (∀ p ∈ cardProps, p.1 ≠ "id" → p.1 ≠ "createdAt" →
        (p.1, FieldDef.mk (get_python_type p.2) false) ∈ ms.cardUpdate) :=
  ⟨by simp [cardProps], C5_card_update_shape cardProps cardRequired (by simp [cardProps])⟩

/-! ## Claims C6 and C7 -/

theorem cardLE_trans (a b c : Card) : cardLE a b → cardLE b c → cardLE a c := by
  simp only [cardLE, decide_eq_true_eq]
  omega

theorem cardLE_total (a b : Card) : cardLE a b || cardLE b a := by
  simp only [cardLE]
  by_cases h : a.order ≤ b.order
  · simp [h]
  · simp [h]
    omega

/-- C6: the list returned by `get_all_cards` is sorted non-decreasing
by `order`, and within each equal-`order` class the cards appear in
exactly the stored (insertion) order: sorting is stable. -/
theorem C6_get_all_sorted (db : List (String × Meta)) :
    (get_all_cards db).Pairwise (fun a b => a.order ≤ b.order) ∧
    ∀ k : Int, (get_all_cards db).filter (fun c => c.order == k) =
      ((db.map Prod.snd).filterMap parseCard).filter (fun c => c.order == k) := by
  constructor
  · have h := List.sorted_mergeSort cardLE_trans cardLE_total
      ((db.map Prod.snd).filterMap parseCard)
    apply h.imp
    intro a b hab
    simpa [cardLE] using hab
  · intro k
    set l := (db.map Prod.snd).filterMap parseCard with hl
    set p := fun c : Card => c.order == k with hp
    have hpair : (l.filter p).Pairwise (fun a b => cardLE a b = true) := by
      apply List.pairwise_of_forall_mem_list
      intro a ha b hb
      have ha2 := List.of_mem_filter ha
      have hb2 := List.of_mem_filter hb
      simp only [hp, beq_iff_eq] at ha2 hb2
      simp [cardLE, ha2, hb2]
    have hsub : List.Sublist (l.filter p) (get_all_cards db) := by
      unfold get_all_cards
      exact List.sublist_mergeSort cardLE_trans cardLE_total hpair (List.filter_sublist l)
    have hsub2 : List.Sublist (l.filter p) ((get_all_cards db).filter p) := by
      have h2 := List.Sublist.filter p hsub
      rwa [List.filter_filter, show (fun a => p a && p a) = p from by
        funext a; cases p a <;> rfl] at h2
    have hlen : ((get_all_cards db).filter p).length = (l.filter p).length := by
      have hperm : List.Perm (get_all_cards db) l := List.mergeSort_perm l cardLE
      exact (hperm.filter p).length_eq
    exact (hsub2.eq_of_length hlen.symm).symm

theorem length_filterMap_eq_length_filter_isSome {α β : Type} (f : α → Option β)
    (l : List α) :
    (l.filterMap f).length = (l.filter (fun a => (f a).isSome)).length := by
  induction l with
  | nil => rfl
  | cons a l ih =>
    cases hf : f a with
    | none => simp [List.filterMap_cons, List.filter_cons, hf, ih]
    | some b => simp [List.filterMap_cons, List.filter_cons, hf, ih]

/-- C7: when some stored records fail validation against the current
model, `get_all_cards` skips exactly those records: a card is returned
iff some stored record parses to it, the number of returned cards is
the number of valid records, and the read never aborts (the operation
is total). -/
theorem C7_tolerant_listing (db : List (String × Meta))
    (hbad : ∃ m ∈ db.map Prod.snd, parseCard m = none) :
    (∀ c : Card, c ∈ get_all_cards db ↔ ∃ m ∈ db.map Prod.snd, parseCard m = some c) ∧
    (get_all_cards db).length =
      ((db.map Prod.snd).filter (fun m => (parseCard m).isSome)).length ∧
    (get_all_cards db).length < (db.map Prod.snd).length := by
  refine ⟨?_, ?_, ?_⟩
  · intro c
    unfold get_all_cards
    rw [List.mem_mergeSort, List.mem_filterMap]
  · unfold get_all_cards
    rw [List.length_mergeSort]
    exact length_filterMap_eq_length_filter_isSome parseCard (db.map Prod.snd)
  · unfold get_all_cards
    rw [List.length_mergeSort,
      length_filterMap_eq_length_filter_isSome parseCard (db.map Prod.snd)]
    obtain ⟨m, hm, hmp⟩ := hbad
    apply List.length_filter_lt_length_iff_exists.mpr
    exact ⟨m, hm, by simp [hmp]⟩

/-- C7 witness: a store with one valid and one corrupt record lists
exactly the valid one. -/
theorem C7_tolerant_listing_witness :
    (∃ m ∈ ([("good", sampleMeta), ("bad", [("id", "b")])].map Prod.snd),
      parseCard m = none) ∧
    ((∀ c : Card, c ∈ get_all_cards [("good", sampleMeta), ("bad", [("id", "b")])] ↔
        ∃ m ∈ ([("good", sampleMeta), ("bad", [("id", "b")])].map Prod.snd),
          parseCard m = some c) ∧
     (get_all_cards [("good", sampleMeta), ("bad", [("id", "b")])]).length =
       (([("good", sampleMeta), ("bad", [("id", "b")])].map Prod.snd).filter
         (fun m => (parseCard m).isSome)).length ∧
     (get_all_cards [("good", sampleMeta), ("bad", [("id", "b")])]).length <
       ([("good", sampleMeta), ("bad", [("id", "b")])].map Prod.snd).length) :=
  ⟨⟨[("id", "b")], by decide, by decide⟩,
   C7_tolerant_listing [("good", sampleMeta), ("bad", [("id", "b")])]
     ⟨[("id", "b")], by decide, by decide⟩⟩

/-! ## Claim C8 -/

theorem find?_eq_none_of_fresh (base : List (String × Meta)) (i : String)
    (h : ∀ p ∈ base, p.1 ≠ i) :
    base.find? (fun p => p.1 == i) = none := by
  rw [List.find?_eq_none]
  intro p hp hbeq
  exact h p hp (eq_of_beq hbeq)

theorem add_cards_fresh_spec (gen : Nat → String) (now : Nat)
    (hinj : ∀ a b, gen a = gen b → a = b) :
    ∀ (cards : List CardIn) (ctr : Nat) (base : List (String × Meta)),
    (∀ i, ctr ≤ i → ∀ p ∈ base, p.1 ≠ gen i) →
    (∀ c ∈ cards, c.id = none) →
    (∀ c ∈ cards, ∀ t ∈ c.tags, quoteChar ∉ t.data) →
    (add_cards gen now cards ctr).1.Nodup ∧
    (∀ i ∈ (add_cards gen now cards ctr).1, ∀ p ∈ base, p.1 ≠ i) ∧
    (∀ i ∈ (add_cards gen now cards ctr).1,
      ∃ c : Card,
        get_card_by_id (base ++ (add_cards gen now cards ctr).2.1) i = .ok (some c) ∧
        c.id = i) := by
  intro cards
  induction cards with
  | nil =>
    intro ctr base hfresh hnoid htags
    refine ⟨List.nodup_nil, ?_, ?_⟩
    · intro i hi
      simp [add_cards] at hi
    · intro i hi
      simp [add_cards] at hi
  | cons c cs ih =>
    intro ctr base hfresh hnoid htags
    have hcid : c.id = none := hnoid c (by simp)
    have hidf : idFalsy c = true := by simp [idFalsy, hcid]
    have hassign : assignedId c (gen ctr) = gen ctr := by simp [assignedId, hcid]
    have ha : (add_cards gen now (c :: cs) ctr).1 =
        gen ctr :: (add_cards gen now cs (ctr + 1)).1 := by
      simp [add_cards, hassign, hidf]
    have hb : (add_cards gen now (c :: cs) ctr).2.1 =
        (gen ctr, processCard c (gen ctr) now) :: (add_cards gen now cs (ctr + 1)).2.1 := by
      simp [add_cards, hassign, hidf]
    have hfresh2 : ∀ i, ctr + 1 ≤ i →
        ∀ p ∈ base ++ [(gen ctr, processCard c (gen ctr) now)], p.1 ≠ gen i := by
      intro i hi p hp
      rcases List.mem_append.mp hp with hp1 | hp2
      · exact hfresh i (by omega) p hp1
      · have hpe : p = (gen ctr, processCard c (gen ctr) now) := by simpa using hp2
        rw [hpe]
        intro he
        have := hinj ctr i he
        omega
    have ihr := ih (ctr + 1) (base ++ [(gen ctr, processCard c (gen ctr) now)]) hfresh2
      (fun c2 h2 => hnoid c2 (by simp [h2]))
      (fun c2 h2 => htags c2 (by simp [h2]))
    have hparse := parseCard_processCard c (gen ctr) now (htags c (by simp))
    rw [hassign] at hparse
    refine ⟨?_, ?_, ?_⟩
    · rw [ha]
      apply List.nodup_cons.mpr
      refine ⟨?_, ihr.1⟩
      intro hmem
      exact ihr.2.1 (gen ctr) hmem (gen ctr, processCard c (gen ctr) now) (by simp) rfl
    · rw [ha]
      intro i hi p hp
      rcases List.mem_cons.mp hi with hi1 | hi2
      · rw [hi1]
        exact fun he => hfresh ctr le_rfl p hp he
      · exact ihr.2.1 i hi2 p (List.mem_append_left _ hp)
    · rw [ha, hb]
      intro i hi
      rcases List.mem_cons.mp hi with hi1 | hi2
      · subst hi1
        refine ⟨⟨gen ctr, c.title, c.description, c.status, c.order,
          c.tags.map pyLower, c.createdAt.getD now, now, c.completedAt⟩, ?_, rfl⟩
        have hfind : (base ++ (gen ctr, processCard c (gen ctr) now) ::
            (add_cards gen now cs (ctr + 1)).2.1).find? (fun p => p.1 == gen ctr) =
            some (gen ctr, processCard c (gen ctr) now) := by
          rw [List.find?_append, find?_eq_none_of_fresh base (gen ctr)
            (fun p hp => hfresh ctr le_rfl p hp)]
          simp [List.find?]
        unfold get_card_by_id
        rw [hfind]
        show (match parseCard (processCard c (gen ctr) now) with
          | some cc => Except.ok (some cc)
          | none => Except.error "Failed to retrieve card") = _
        rw [hparse]
      · obtain ⟨cc, hcc1, hcc2⟩ := ihr.2.2 i hi2
        refine ⟨cc, ?_, hcc2⟩
        rw [show base ++ (gen ctr, processCard c (gen ctr) now) ::
            (add_cards gen now cs (ctr + 1)).2.1 =
          (base ++ [(gen ctr, processCard c (gen ctr) now)]) ++
            (add_cards gen now cs (ctr + 1)).2.1 from by simp]
        exact hcc1

theorem mem_get_all_of_get_by_id (db : List (String × Meta)) (i : String) (c : Card)
    (h : get_card_by_id db i = .ok (some c)) : c ∈ get_all_cards db := by
  unfold get_card_by_id at h
  cases hf : db.find? (fun p => p.1 == i) with
  | none => rw [hf] at h; simp at h
  | some p =>
    rw [hf] at h
    have h2 : (match parseCard p.2 with
      | some cc => Except.ok (some cc)
      | none => (Except.error "Failed to retrieve card" : Except String (Option Card))) =
        Except.ok (some c) := h
    cases hp : parseCard p.2 with
    | none => rw [hp] at h2; simp at h2
    | some c2 =>
      rw [hp] at h2
      simp only [Except.ok.injEq, Option.some.injEq] at h2
      have hmem := List.mem_of_find?_eq_some hf
      unfold get_all_cards
      rw [List.mem_mergeSort, List.mem_filterMap]
      exact ⟨p.2, List.mem_map.mpr ⟨p, hmem, rfl⟩, by rw [hp, h2]⟩

theorem add_cards_length (gen : Nat → String) (now : Nat) :
    ∀ (cards : List CardIn) (ctr : Nat),
      (add_cards gen now cards ctr).1.length = cards.length := by
  intro cards
  induction cards with
  | nil => intro ctr; rfl
  | cons c cs ih => intro ctr; simp [add_cards, ih]

/-- C8: when a batch of cards without ids is added over a store whose
existing ids are disjoint from the uuid stream, every card is assigned
an id (one per card), the assigned ids are pairwise distinct and
distinct from every previously stored id, and each assigned id is
returned unchanged both by get-by-id and by the get-all listing. -/
theorem C8_assigned_ids_roundtrip (gen : Nat → String) (now : Nat)
    (cards : List CardIn) (base : List (String × Meta)) (ctr : Nat)
    (hinj : ∀ a b, gen a = gen b → a = b)
    (hfresh : ∀ i, ctr ≤ i → ∀ p ∈ base, p.1 ≠ gen i)
    (hnoid : ∀ c ∈ cards, c.id = none)
    (htags : ∀ c ∈ cards, ∀ t ∈ c.tags, quoteChar ∉ t.data) :
    (add_cards gen now cards ctr).1.length = cards.length ∧
    (add_cards gen now cards ctr).1.Nodup ∧
    (∀ i ∈ (add_cards gen now cards ctr).1, ∀ p ∈ base, p.1 ≠ i) ∧
    (∀ i ∈ (add_cards gen now cards ctr).1,
      ∃ c : Card,
        get_card_by_id (base ++ (add_cards gen now cards ctr).2.1) i = .ok (some c) ∧
        c.id = i ∧
        c ∈ get_all_cards (base ++ (add_cards gen now cards ctr).2.1)) := by
  obtain ⟨h1, h2, h3⟩ := add_cards_fresh_spec gen now hinj cards ctr base hfresh hnoid htags
  refine ⟨add_cards_length gen now cards ctr, h1, h2, ?_⟩
  intro i hi
  obtain ⟨c, hc1, hc2⟩ := h3 i hi
  exact ⟨c, hc1, hc2, mem_get_all_of_get_by_id _ i c hc1⟩

/-- C8 witness: one id-less card added to an empty store. -/
theorem C8_assigned_ids_roundtrip_witness :
    (add_cards c8Gen 5 [sampleCard] 0).1.length = 1 ∧
    (add_cards c8Gen 5 [sampleCard] 0).1.Nodup ∧
    (∀ i ∈ (add_cards c8Gen 5 [sampleCard] 0).1,
      ∀ p ∈ ([] : List (String × Meta)), p.1 ≠ i) ∧
    (∀ i ∈ (add_cards c8Gen 5 [sampleCard] 0).1,
      ∃ c : Card,
        get_card_by_id ([] ++ (add_cards c8Gen 5 [sampleCard] 0).2.1) i = .ok (some c) ∧
        c.id = i ∧
        c ∈ get_all_cards ([] ++ (add_cards c8Gen 5 [sampleCard] 0).2.1)) :=
  C8_assigned_ids_roundtrip c8Gen 5 [sampleCard] [] 0
    (fun a b h => by
      have hlen := congrArg (fun s => s.data.length) h
      simp [c8Gen] at hlen
      omega)
    (by simp)
    (by decide)
    (by decide)

/-! ## Claim C10 -/

theorem map_eq_self_fix {α : Type} (f : α → α) (l : List α) (h : l.map f = l) :
    ∀ x ∈ l, f x = x := by
  induction l with
  | nil => simp
  | cons a l ih =>
    intro x hx
    simp only [List.map_cons, List.cons.injEq] at h
    rcases List.mem_cons.mp hx with hxa | hxl
    · rw [hxa]; exact h.1
    · exact ih h.2 x hxl

/-- C10: the tags stored by `add_cards` and returned by the read path
are the lowercased forms of the input tags, in order; consequently a
tag containing an uppercase ASCII letter never round-trips
unchanged. -/
theorem C10_tags_lowercased (c : CardIn) (fresh i : String) (now : Nat)
    (htags : ∀ t ∈ c.tags, quoteChar ∉ t.data) :
    (∃ card : Card, parseCard (processCard c fresh now) = some card ∧
      card.tags = c.tags.map pyLower ∧
      get_all_cards [(i, processCard c fresh now)] = [card]) ∧
    ((∃ t ∈ c.tags, ∃ ch ∈ t.data, 65 ≤ ch.toNat ∧ ch.toNat ≤ 90) →
      c.tags.map pyLower ≠ c.tags) := by
  have hparse := parseCard_processCard c fresh now htags
  constructor
  · refine ⟨_, hparse, rfl, ?_⟩
    unfold get_all_cards
    simp only [List.map_cons, List.map_nil, List.filterMap_cons, List.filterMap_nil,
      hparse]
    exact List.mergeSort_of_sorted (by simp)
  · intro ⟨t, ht, hup⟩ heq
    exact pyLower_ne_of_mem_upper t hup (map_eq_self_fix pyLower c.tags heq t ht)

/-- C10 witness: a card with the uppercase tags `API` and `Backend`. -/
theorem C10_tags_lowercased_witness :
    (∀ t ∈ sampleCard.tags, quoteChar ∉ t.data) ∧
    ((∃ card : Card, parseCard (processCard sampleCard "u" 5) = some card ∧
      card.tags = sampleCard.tags.map pyLower ∧
      get_all_cards [("u", processCard sampleCard "u" 5)] = [card]) ∧
    ((∃ t ∈ sampleCard.tags, ∃ ch ∈ t.data, 65 ≤ ch.toNat ∧ ch.toNat ≤ 90) →
      sampleCard.tags.map pyLower ≠ sampleCard.tags)) :=
  ⟨by decide, C10_tags_lowercased sampleCard "u" "u" 5 (by decide)⟩
